import Mathlib

/-!
Verification development for the LuminaOS real-time tutoring whiteboard /
audio session pipeline.

The definitions below are a shallow embedding of the TypeScript source:

* `parseWhiteboardCommands` embeds the regex-driven scan
  `/\[BOARD:(\x7b.*?\x7d)\]/g` over a streamed text chunk together with
  `JSON.parse` of each captured payload (SocraticChat helper).
* `executeCommand`, `expandCanvas`, `renderImage` embed the
  `TutorWhiteboard` canvas manager (write dedup, divider-on-clear,
  growth-preserving expansion, image placement).
* `playChunk` / `interruptPlayback` embed the audio playback scheduling in
  the `onmessage` callback, and `processFrame` embeds the microphone
  capture path (`onaudioprocess` plus the base64 `encode` helper).

Numeric values are modelled with exact rationals (the JS float literal
`1.4` is modelled as `7/5`); IEEE rounding is abstracted away.  Pixels are
modelled as a paint-event history per point `(x, y) : ℚ × ℚ`; the
browser's glyph/shape rasterisation footprints are abstract parameters
(`RenderEnv`), while footprints that the code fixes exactly (the dashed
divider, the highlight rectangle, the restore-after-growth region) are
concrete.
-/

namespace LuminaOS

/-! ### JSON values and `JSON.parse`

A small model of the JSON data JS `JSON.parse` produces.  Numbers keep
their source lexeme (no claim inspects a numeric value, only JS
truthiness, which for a JSON number is "some nonzero digit in the
mantissa").  Duplicate object keys follow JS semantics: the last binding
wins on property lookup. -/

inductive JVal where
  | jnull : JVal
  | jbool : Bool → JVal
  | jnum : String → JVal
  | jstr : String → JVal
  | jarr : List JVal → JVal
  | jobj : List (String × JVal) → JVal

/-- JSON whitespace (the four characters `JSON.parse` skips). -/
def isJsonWs (c : Char) : Bool :=
  c = ' ' || c = '\t' || c = '\n' || c = '\r'

def skipWs : List Char → List Char
  | [] => []
  | c :: cs => if isJsonWs c then skipWs cs else c :: cs

def hexVal (c : Char) : Option Nat :=
  if '0' ≤ c ∧ c ≤ '9' then some (c.toNat - 48)
  else if 'a' ≤ c ∧ c ≤ 'f' then some (c.toNat - 87)
  else if 'A' ≤ c ∧ c ≤ 'F' then some (c.toNat - 55)
  else none

/-- Body of a JSON string after the opening quote: returns the decoded
characters and the remaining input after the closing quote.  Control
characters below 0x20 are rejected, escape sequences follow the JSON
grammar. -/
def parseJStringAux : List Char → Option (List Char × List Char)
  | [] => none
  | '"' :: rest => some ([], rest)
  | '\\' :: 'u' :: h1 :: h2 :: h3 :: h4 :: rest =>
    match hexVal h1, hexVal h2, hexVal h3, hexVal h4 with
    | some a, some b, some c, some d =>
      match parseJStringAux rest with
      | some (s, r) => some (Char.ofNat (((a * 16 + b) * 16 + c) * 16 + d) :: s, r)
      | none => none
    | _, _, _, _ => none
  | '\\' :: e :: rest =>
    match jsonEscape e with
    | some c =>
      match parseJStringAux rest with
      | some (s, r) => some (c :: s, r)
      | none => none
    | none => none
  | c :: rest =>
    if c.toNat < 32 then none
    else
      match parseJStringAux rest with
      | some (s, r) => some (c :: s, r)
      | none => none
where
  jsonEscape : Char → Option Char
    | '"' => some '"'
    | '\\' => some '\\'
    | '/' => some '/'
    | 'b' => some (Char.ofNat 8)
    | 'f' => some (Char.ofNat 12)
    | 'n' => some '\n'
    | 'r' => some '\r'
    | 't' => some '\t'
    | _ => none

/-- Longest leading run of decimal digits. -/
def takeDigits : List Char → List Char × List Char
  | [] => ([], [])
  | c :: cs =>
    if c.isDigit then
      let (d, r) := takeDigits cs
      (c :: d, r)
    else ([], c :: cs)

/-- JSON number lexeme: `-? (0 | [1-9][0-9]*) (.[0-9]+)? ([eE][+-]?[0-9]+)?`. -/
def parseJNumber (cs : List Char) : Option (List Char × List Char) :=
  let (sgn, cs₁) : List Char × List Char :=
    match cs with
    | '-' :: r => (['-'], r)
    | _ => ([], cs)
  match cs₁ with
  | '0' :: r => afterInt (sgn ++ ['0']) r
  | c :: r =>
    if '1' ≤ c ∧ c ≤ '9' then
      let (d, r₂) := takeDigits r
      afterInt (sgn ++ c :: d) r₂
    else none
  | [] => none
where
  afterInt (acc : List Char) (r : List Char) : Option (List Char × List Char) :=
    match fracPart r with
    | none => none
    | some (f, r₂) =>
      match expPart r₂ with
      | none => none
      | some (e, r₃) => some (acc ++ f ++ e, r₃)
  fracPart (r : List Char) : Option (List Char × List Char) :=
    match r with
    | '.' :: r₂ =>
      let (d, r₃) := takeDigits r₂
      if d = [] then none else some ('.' :: d, r₃)
    | _ => some ([], r)
  expPart (r : List Char) : Option (List Char × List Char) :=
    match r with
    | 'e' :: r₂ => expDigits ['e'] r₂
    | 'E' :: r₂ => expDigits ['E'] r₂
    | _ => some ([], r)
  expDigits (acc : List Char) (r : List Char) : Option (List Char × List Char) :=
    match r with
    | '+' :: r₂ =>
      let (d, r₃) := takeDigits r₂
      if d = [] then none else some (acc ++ '+' :: d, r₃)
    | '-' :: r₂ =>
      let (d, r₃) := takeDigits r₂
      if d = [] then none else some (acc ++ '-' :: d, r₃)
    | _ =>
      let (d, r₃) := takeDigits r
      if d = [] then none else some (acc ++ d, r₃)

mutual

/-- JSON value parser (fuel-indexed; the callers supply ample fuel). -/
def parseJValue : Nat → List Char → Option (JVal × List Char)
  | 0, _ => none
  | _ + 1, [] => none
  | fuel + 1, c :: rest =>
    if c = '"' then
      match parseJStringAux rest with
      | some (s, r) => some (.jstr (String.mk s), r)
      | none => none
    else if c = '{' then
      match skipWs rest with
      | '}' :: r₂ => some (.jobj [], r₂)
      | r₁ => match parseJMembers fuel r₁ with
        | some (ms, r₂) => some (.jobj ms, r₂)
        | none => none
    else if c = '[' then
      match skipWs rest with
      | ']' :: r₂ => some (.jarr [], r₂)
      | r₁ => match parseJItems fuel r₁ with
        | some (vs, r₂) => some (.jarr vs, r₂)
        | none => none
    else if c = 't' then
      match rest with
      | 'r' :: 'u' :: 'e' :: r => some (.jbool true, r)
      | _ => none
    else if c = 'f' then
      match rest with
      | 'a' :: 'l' :: 's' :: 'e' :: r => some (.jbool false, r)
      | _ => none
    else if c = 'n' then
      match rest with
      | 'u' :: 'l' :: 'l' :: r => some (.jnull, r)
      | _ => none
    else if c = '-' ∨ c.isDigit then
      match parseJNumber (c :: rest) with
      | some (lex, r) => some (.jnum (String.mk lex), r)
      | none => none
    else none

/-- Object members: expects the first key (whitespace already skipped). -/
def parseJMembers : Nat → List Char → Option (List (String × JVal) × List Char)
  | 0, _ => none
  | fuel + 1, cs =>
    match cs with
    | '"' :: r =>
      (match parseJStringAux r with
       | some (k, r₂) =>
         (match skipWs r₂ with
          | ':' :: r₃ =>
            (match parseJElement fuel r₃ with
             | some (v, r₄) =>
               (match r₄ with
                | ',' :: r₅ =>
                  (match parseJMembers fuel (skipWs r₅) with
                   | some (ms, r₆) => some ((String.mk k, v) :: ms, r₆)
                   | none => none)
                | '}' :: r₅ => some ([(String.mk k, v)], r₅)
                | _ => none)
             | none => none)
          | _ => none)
       | none => none)
    | _ => none

/-- Array items: expects the first element (whitespace already skipped). -/
def parseJItems : Nat → List Char → Option (List JVal × List Char)
  | 0, _ => none
  | fuel + 1, cs =>
    match parseJElement fuel cs with
    | some (v, r) =>
      (match r with
       | ',' :: r₂ =>
         (match parseJItems fuel (skipWs r₂) with
          | some (vs, r₃) => some (v :: vs, r₃)
          | none => none)
       | ']' :: r₂ => some ([v], r₂)
       | _ => none)
    | none => none

/-- `ws value ws`, as in the JSON `element` production. -/
def parseJElement : Nat → List Char → Option (JVal × List Char)
  | 0, _ => none
  | fuel + 1, cs =>
    match parseJValue fuel (skipWs cs) with
    | some (v, r) => some (v, skipWs r)
    | none => none

end

/-- Model of `JSON.parse`: `none` models a thrown `SyntaxError`. -/
def jsonParse (s : String) : Option JVal :=
  let cs := skipWs s.toList
  match parseJValue (2 * s.length + 4) cs with
  | some (v, r) => if skipWs r = [] then some v else none
  | none => none

/-- Last-binding-wins property lookup, as on a JS object built by
`JSON.parse` with duplicate keys. -/
def getProp (j : JVal) (key : String) : Option JVal :=
  match j with
  | .jobj fields => fields.foldl (fun acc p => if p.1 = key then some p.2 else acc) none
  | _ => none

/-- Is a JSON number lexeme nonzero?  For a valid lexeme the value is
zero exactly when every mantissa digit is `0`. -/
def numLexemeNonzero (lex : String) : Bool :=
  lex.toList.any fun c => '1' ≤ c && c ≤ '9'

/-- JS truthiness of `cmd.action` (absent property gives `undefined`,
which is falsy). -/
def jsTruthy : Option JVal → Bool
  | none => false
  | some .jnull => false
  | some (.jbool b) => b
  | some (.jnum lex) => numLexemeNonzero lex
  | some (.jstr s) => !s.isEmpty
  | some (.jarr _) => true
  | some (.jobj _) => true

/-! ### The command protocol parser

`parseWhiteboardCommands` (part_005 lines 56–70): scan the chunk with
`/\[BOARD:(\x7b.*?\x7d)\]/g`; `JSON.parse` each captured payload; a parse
failure is logged (`console.warn`) and skipped; a parsed value is pushed
exactly when `cmd.action` is truthy.  The pushed value is the raw parsed
JSON object (the TS `as WhiteboardCommand` cast has no runtime content),
so a command is modelled as the `JVal` itself. -/

/-- The literal `[BOARD:` followed by the `{` that opens the lazy group. -/
def boardOpen : List Char := ['[', 'B', 'O', 'A', 'R', 'D', ':', '{']

/-- Match a literal character sequence, returning the rest. -/
def stripLit : List Char → List Char → Option (List Char)
  | [], cs => some cs
  | _ :: _, [] => none
  | p :: ps, c :: cs => if c = p then stripLit ps cs else none

/-- The lazy `.*?` of `\x7b.*?\x7d\]`: find the least `\x7d\]` with every
intervening character a non-line-terminator (regex `.` without the `s`
flag).  Returns the inner characters and the input after `\x7d\]`. -/
def findClose : List Char → Option (List Char × List Char)
  | [] => none
  | '}' :: ']' :: rest => some ([], rest)
  | c :: rest =>
    if c = '\n' ∨ c = '\r' then none
    else
      match findClose rest with
      | some (inner, r) => some (c :: inner, r)
      | none => none

/-- Decode one captured payload into a command: `JSON.parse`, then keep
the value exactly when `cmd.action` is truthy.  `none` covers both a
thrown parse error (logged and skipped in the source) and a falsy
`action` (silently not pushed). -/
def decodeBoardPayload (payload : String) : Option JVal :=
  match jsonParse payload with
  | none => none
  | some j => if jsTruthy (getProp j "action") then some j else none

/-- The fused scan loop of `parseWhiteboardCommands`: at each position try
the marker pattern; on a match, decode the payload and push the command
when decoding succeeds, then continue after the match; on a pattern
failure advance one position (the regex engine's next start).  Fuel is
the remaining input length. -/
def parseWBAux : Nat → List Char → List JVal
  | 0, _ => []
  | _ + 1, [] => []
  | fuel + 1, c :: cs =>
    match stripLit boardOpen (c :: cs) with
    | some afterOpen =>
      match findClose afterOpen with
      | some (inner, r) =>
        match decodeBoardPayload (String.mk ('{' :: inner ++ ['}'])) with
        | some cmd => cmd :: parseWBAux fuel r
        | none => parseWBAux fuel r
      | none => parseWBAux fuel cs
    | none => parseWBAux fuel cs

/-- `parseWhiteboardCommands` from part_005: all commands decoded from the
well-formed `[BOARD:...]` markers of one text chunk, in source order. -/
def parseWhiteboardCommands (text : String) : List JVal :=
  parseWBAux text.length text.toList

/-- The same scan, but collecting the raw payload of every complete
marker (well-formed or not), in source order. -/
def boardMarkersAux : Nat → List Char → List String
  | 0, _ => []
  | _ + 1, [] => []
  | fuel + 1, c :: cs =>
    match stripLit boardOpen (c :: cs) with
    | some afterOpen =>
      match findClose afterOpen with
      | some (inner, r) => String.mk ('{' :: inner ++ ['}']) :: boardMarkersAux fuel r
      | none => boardMarkersAux fuel cs
    | none => boardMarkersAux fuel cs

/-- The payloads of all complete `[BOARD:...]` markers in a chunk. -/
def boardMarkers (text : String) : List String :=
  boardMarkersAux text.length text.toList

/-- An apostrophe, kept out of string literals. -/
def apos : String := String.singleton (Char.ofNat 39)

/-- The end-to-end scenario input from the specification. -/
def c1ExampleText : String :=
  "Let" ++ apos ++ "s begin. [BOARD:\x7b\"action\":\"write\",\"text\":\"F = ma\"\x7d] Good."

/-- A chunk with a malformed payload followed by a well-formed marker. -/
def c1SkipText : String :=
  "[BOARD:\x7bbad\x7d] then [BOARD:\x7b\"action\":\"write\",\"text\":\"ok\"\x7d] end"

/-! ### The canvas surface manager (`TutorWhiteboard`, part_002 2045–2461)

Typed command payloads mirror the TS interfaces.  Optional numeric fields
keep the `Option` so that the JS `||` (falsy: absent or `0`) versus `??`
(nullish: absent only) defaulting of the source is modelled exactly. -/

structure WriteData where
  text : String
  x : Option ℚ
  y : Option ℚ
  size : Option ℚ
  color : Option String
  deriving DecidableEq

structure DrawData where
  shape : String
  fromPt : Option (ℚ × ℚ)
  toPt : Option (ℚ × ℚ)
  center : Option (ℚ × ℚ)
  radius : Option ℚ
  width : Option ℚ
  height : Option ℚ
  color : Option String
  deriving DecidableEq

structure HighlightData where
  x : ℚ
  y : ℚ
  width : ℚ
  height : ℚ
  color : Option String
  deriving DecidableEq

structure ImgData where
  imageData : String
  x : Option ℚ
  y : Option ℚ
  width : Option ℚ
  height : Option ℚ
  deriving DecidableEq

inductive Cmd where
  | write : WriteData → Cmd
  | draw : DrawData → Cmd
  | highlight : HighlightData → Cmd
  | clear : Cmd
  | image : ImgData → Cmd

def CANVAS_WIDTH : ℚ := 800
def MIN_CANVAS_HEIGHT : ℚ := 800
def CONTENT_PADDING : ℚ := 30

/-- JS `v || dflt` for an optional number (`0` and absent are falsy). -/
def orElseNum (o : Option ℚ) (dflt : ℚ) : ℚ :=
  match o with
  | some v => if v = 0 then dflt else v
  | none => dflt

/-- JS `v || dflt` for an optional string (`""` and absent are falsy). -/
def colorOr (o : Option String) (dflt : String) : String :=
  match o with
  | some c => if c = "" then dflt else c
  | none => dflt

/-- One paint operation issued to the 2D context. -/
inductive PaintEvent where
  | bg : PaintEvent
  | text : String → ℚ → ℚ → ℚ → String → PaintEvent
  | shape : DrawData → PaintEvent
  | highlight : ℚ → ℚ → ℚ → ℚ → String → PaintEvent
  | divider : ℚ → PaintEvent
  | image : ℚ → ℚ → ℚ → ℚ → PaintEvent
  deriving DecidableEq

/-- A pixel's paint history: the operations that painted it, in order. -/
def Raster : Type := ℚ × ℚ → List PaintEvent

/-- Paint an event onto every pixel in a footprint. -/
def paint (mask : ℚ × ℚ → Bool) (e : PaintEvent) (r : Raster) : Raster :=
  fun p => if mask p then r p ++ [e] else r p

/-- Rasterisation footprints the code delegates to the browser (glyph
shapes, stroked shapes, decoded image pixels), plus the decoder for the
intrinsic dimensions of a base64 image (`none` models a decode failure). -/
structure RenderEnv where
  textMask : String → ℚ → ℚ → ℚ → ℚ × ℚ → Bool
  shapeMask : DrawData → ℚ × ℚ → Bool
  imageMask : ℚ → ℚ → ℚ → ℚ → ℚ × ℚ → Bool
  decodeImage : String → Option (ℚ × ℚ)

/-- The whiteboard's ref-held state: cursor, surface height, dedup hash
set, item counter, the raster, and the ordered log of paint operations. -/
structure WBState where
  currentY : ℚ
  height : ℚ
  hashes : List String
  itemCount : Nat
  raster : Raster
  log : List PaintEvent

/-- Initial state: cursor 80, height `MIN_CANVAS_HEIGHT`, background
painted everywhere, nothing rendered. -/
def initWB : WBState :=
  { currentY := 80
    height := MIN_CANVAS_HEIGHT
    hashes := []
    itemCount := 0
    raster := fun _ => [.bg]
    log := [] }

/-- The dedup key of a write: `"text-" + text.trim().toLowerCase().substring(0, 30)`
(part_002 line 2297).  Lean's `trim`/`toLower`/`take` stand in for the JS
(ASCII-equivalent on the inputs at issue). -/
def normHash (t : String) : String :=
  "text-" ++ (t.trim.toLower.take 30)

/-- `cmd.size || 24`. -/
def writeFontSize (w : WriteData) : ℚ :=
  orElseNum w.size 24

/-- Region the growth restore covers: the old surface `[0, W) × [0, oldH)`. -/
def inOldRegion (oldH : ℚ) (p : ℚ × ℚ) : Prop :=
  0 ≤ p.1 ∧ p.1 < CANVAS_WIDTH ∧ 0 ≤ p.2 ∧ p.2 < oldH

instance (oldH : ℚ) (p : ℚ × ℚ) : Decidable (inOldRegion oldH p) :=
  inferInstanceAs (Decidable (_ ∧ _))

/-- `expandCanvas(newHeight)` (part_002 2159–2207): no-op when
`newHeight <= currentHeight`; otherwise snapshot the raster, resize,
repaint the background, and restore the snapshot at the origin before
resolving.  The composite raster: old pixels keep their history, the new
strip is freshly painted background. -/
def expandCanvas (s : WBState) (newHeight : ℚ) : WBState :=
  if newHeight ≤ s.height then s
  else
    let snapshot := s.raster
    { s with
      height := newHeight
      raster := fun p => if inOldRegion s.height p then snapshot p else [.bg] }

/-- A sequence of growth requests. -/
def runGrow (s : WBState) : List ℚ → WBState
  | [] => s
  | h :: rest => runGrow (expandCanvas s h) rest

/-- Footprint of the dashed divider stroked from `(40, y)` to
`(CANVAS_WIDTH - 40, y)` with `lineWidth 1` and dash pattern `[10, 10]`
(a half-pixel anti-aliasing margin is included in the strip). -/
def dividerMask (dy : ℚ) (p : ℚ × ℚ) : Bool :=
  decide (40 ≤ p.1 ∧ p.1 ≤ CANVAS_WIDTH - 40 ∧ dy - 1 ≤ p.2 ∧ p.2 ≤ dy + 1 ∧
    (⌊(p.1 - 40) / 10⌋ % 2 = 0))

/-- Footprint of `fillRect(x, y, width, height)`. -/
def highlightMask (hd : HighlightData) (p : ℚ × ℚ) : Bool :=
  decide (hd.x ≤ p.1 ∧ p.1 ≤ hd.x + hd.width ∧ hd.y ≤ p.2 ∧ p.2 ≤ hd.y + hd.height)

/-- Does `drawShape` actually stroke anything?  Mirrors the truthiness
guards `cmd.from && cmd.to`, `cmd.center && cmd.radius`,
`cmd.from && cmd.width && cmd.height` (a `0` radius/width/height is falsy). -/
def shapeDrawn (d : DrawData) : Bool :=
  if d.shape = "arrow" then d.fromPt.isSome && d.toPt.isSome
  else if d.shape = "circle" then d.center.isSome && numTruthy d.radius
  else if d.shape = "rect" then d.fromPt.isSome && numTruthy d.width && numTruthy d.height
  else if d.shape = "line" then d.fromPt.isSome && d.toPt.isSome
  else false
where
  numTruthy : Option ℚ → Bool
    | some v => decide (v ≠ 0)
    | none => false

/-- Placement computed by `renderImage` (part_002 2387–2390) given the
decoded intrinsic dimensions: `width || min(550, W - 80)`,
`height || intrinsicH * (imgWidth / intrinsicW)`, `x ?? (W - imgWidth)/2`,
`y ?? getNextY(imgHeight + 40)`.  `getNextY` advances the cursor, so the
possibly-updated state is returned alongside the geometry. -/
structure ImgLayout where
  ix : ℚ
  iy : ℚ
  w : ℚ
  h : ℚ
  st : WBState

def imgLayout (s : WBState) (d : ImgData) (dims : ℚ × ℚ) : ImgLayout :=
  let imgW := orElseNum d.width (min 550 (CANVAS_WIDTH - 80))
  let imgH := orElseNum d.height (dims.2 * (imgW / dims.1))
  let ix :=
    match d.x with
    | some v => v
    | none => (CANVAS_WIDTH - imgW) / 2
  match d.y with
  | some v => { ix := ix, iy := v, w := imgW, h := imgH, st := s }
  | none =>
    { ix := ix, iy := s.currentY, w := imgW, h := imgH
      st := { s with currentY := s.currentY + ((imgH + 40) + CONTENT_PADDING) } }

/-- Events observable from `renderImage`: the growth request it awaits and
the image draw it performs afterwards. -/
inductive ImgEvent where
  | growCall : ℚ → ImgEvent
  | drawImage : ℚ → ℚ → ℚ → ℚ → ImgEvent
  deriving DecidableEq

/-- `drawImageWithBorder` plus the item-count increment. -/
def drawImg (env : RenderEnv) (s : WBState) (L : ImgLayout) : WBState :=
  let ev := PaintEvent.image L.ix L.iy L.w L.h
  { s with
    raster := paint (env.imageMask L.ix L.iy L.w L.h) ev s.raster
    log := s.log ++ [ev]
    itemCount := s.itemCount + 1 }

/-- `renderImage` (part_002 2358–2405): decode, compute placement, and if
`neededHeight = imgY + imgHeight + 100` exceeds the surface height, await
`expandCanvas(neededHeight + 300)` before drawing. -/
def renderImage (env : RenderEnv) (s : WBState) (d : ImgData) : WBState × List ImgEvent :=
  match env.decodeImage d.imageData with
  | none => (s, [])
  | some dims =>
    let L := imgLayout s d dims
    let needed := L.iy + L.h + 100
    if needed > L.st.height then
      (drawImg env (expandCanvas L.st (needed + 300)) L,
        [.growCall (needed + 300), .drawImage L.ix L.iy L.w L.h])
    else
      (drawImg env L.st L, [.drawImage L.ix L.iy L.w L.h])

/-- `executeCommand` (part_002 2278–2355).  The write case advances the
cursor via `getNextY` BEFORE the duplicate-hash check, exactly as the
source does; a duplicate then returns with nothing painted and no count
change.  The clear case paints a dashed divider instead of erasing. -/
def executeCommand (env : RenderEnv) (s : WBState) : Cmd → WBState
  | .write w =>
    let fsize := writeFontSize w
    let th := fsize * (7 / 5)
    let y := s.currentY
    let s₁ : WBState := { s with currentY := s.currentY + (th + CONTENT_PADDING) }
    if normHash w.text ∈ s.hashes then s₁
    else
      let ev := PaintEvent.text w.text 40 y fsize (colorOr w.color "#4ade80")
      { s₁ with
        hashes := normHash w.text :: s₁.hashes
        raster := paint (env.textMask w.text 40 y fsize) ev s₁.raster
        log := s₁.log ++ [ev]
        itemCount := s₁.itemCount + 1 }
  | .draw d =>
    let s₁ :=
      if shapeDrawn d then
        { s with raster := paint (env.shapeMask d) (.shape d) s.raster
                 log := s.log ++ [.shape d] }
      else s
    { s₁ with itemCount := s₁.itemCount + 1 }
  | .highlight hd =>
    let ev := PaintEvent.highlight hd.x hd.y hd.width hd.height
      (colorOr hd.color "rgba(250, 204, 21, 0.3)")
    { s with raster := paint (highlightMask hd) ev s.raster, log := s.log ++ [ev] }
  | .clear =>
    let dy := s.currentY
    let ev := PaintEvent.divider dy
    { s with
      currentY := s.currentY + (50 + CONTENT_PADDING)
      raster := paint (dividerMask dy) ev s.raster
      log := s.log ++ [ev] }
  | .image d => if d.imageData = "" then s else (renderImage env s d).1

/-- Run a command sequence. -/
def runCmds (env : RenderEnv) (s : WBState) : List Cmd → WBState
  | [] => s
  | c :: cs => runCmds env (executeCommand env s c) cs

/-- Texts painted onto the canvas, in paint order. -/
def renderedTexts (log : List PaintEvent) : List String :=
  log.filterMap fun e =>
    match e with
    | .text t _ _ _ _ => some t
    | _ => none

/-- The writes that survive deduplication against an already-seen hash
set: the first of each normalized-text group. -/
def firstWrites : List WriteData → List String → List WriteData
  | [], _ => []
  | w :: ws, seen =>
    if normHash w.text ∈ seen then firstWrites ws seen
    else w :: firstWrites ws (normHash w.text :: seen)

/-- Same dedup on a list of already-normalized hashes. -/
def firstNorms : List String → List String → List String
  | [], _ => []
  | n :: ns, seen =>
    if n ∈ seen then firstNorms ns seen
    else n :: firstNorms ns (n :: seen)

/-- Occurrence count of a string in a list. -/
def countOcc (n : String) : List String → Nat
  | [] => 0
  | m :: ms => (if m = n then 1 else 0) + countOcc n ms

/-- A trivial environment (no pixel is in any abstract footprint; image
decoding fails), used to instantiate witnesses. -/
def env₀ : RenderEnv :=
  { textMask := fun _ _ _ _ _ => false
    shapeMask := fun _ _ => false
    imageMask := fun _ _ _ _ _ => false
    decodeImage := fun _ => none }

/-- Environment whose decoder reports a 100 × 100 intrinsic image. -/
def envC : RenderEnv :=
  { textMask := fun _ _ _ _ _ => false
    shapeMask := fun _ _ => false
    imageMask := fun _ _ _ _ _ => false
    decodeImage := fun _ => some (100, 100) }

/-- An image command with an explicit 800-px height and no position. -/
def imgC : ImgData :=
  { imageData := "diagram", x := none, y := none, width := none, height := some 800 }

/-- Its layout from the initial state. -/
def layoutC : ImgLayout := imgLayout initWB imgC (100, 100)

/-! ### Audio transport bridge — playback (part_005 452–467, 484–490)

On each audio chunk: `nextStartTime := max(nextStartTime, ctx.currentTime)`,
`source.start(nextStartTime)`, `nextStartTime += buffer.duration`, and the
source joins the in-flight set.  On `interrupted`: every in-flight source
is stopped, the set is cleared, and `nextStartTimeRef.current = 0`. -/

structure PlaybackState where
  nextStartTime : ℚ
  sources : List (ℚ × ℚ)
  deriving DecidableEq

/-- The fresh per-session playback state (`useRef(0)`, empty set). -/
def initPlayback : PlaybackState := { nextStartTime := 0, sources := [] }

/-- Schedule one decoded chunk arriving at audio-clock time `now` with
duration `dur`; the scheduled `(start, duration)` pair joins `sources`. -/
def playChunk (s : PlaybackState) (now dur : ℚ) : PlaybackState :=
  let start := max s.nextStartTime now
  { nextStartTime := start + dur, sources := s.sources ++ [(start, dur)] }

/-- A sequence of chunk arrivals `(clock time, duration)`. -/
def runPlayback (s : PlaybackState) : List (ℚ × ℚ) → PlaybackState
  | [] => s
  | (t, d) :: rest => runPlayback (playChunk s t d) rest

/-- The `interrupted` handler: stop and drop every scheduled source and
set `nextStartTime` to `0` (not to the current clock time). -/
def interruptPlayback (_ : PlaybackState) : PlaybackState :=
  { nextStartTime := 0, sources := [] }

/-- Prefix-sum schedule: starts `[b, b + d₁, b + d₁ + d₂, …]` for
durations `[d₁, d₂, …]`; its `n`-th entry is `b` plus the sum of the
first `n` durations. -/
def scheduleFrom (b : ℚ) : List ℚ → List ℚ
  | [] => []
  | d :: ds => b :: scheduleFrom (b + d) ds

/-- Every listed chunk arrives while queued audio is still pending:
its clock time is at most the `nextStartTime` current at its arrival. -/
def laterInTime : ℚ → List (ℚ × ℚ) → Prop
  | _, [] => True
  | ns, (t, d) :: rest => t ≤ ns ∧ laterInTime (ns + d) rest

/-- Adjacent scheduled buffers do not overlap: each starts no earlier
than the previous one's end. -/
def nonOverlap : List (ℚ × ℚ) → Prop
  | [] => True
  | [_] => True
  | a :: b :: rest => a.1 + a.2 ≤ b.1 ∧ nonOverlap (b :: rest)

/-! ### Audio transport bridge — capture (part_005 16–23, 367–387)

`onaudioprocess`: bail out unless `isActiveRef.current` and
`sessionRef.current`; otherwise `int16[i] = inputData[i] * 32768` into an
`Int16Array` (JS semantics: truncate toward zero, wrap modulo 2^16), view
the buffer as bytes (little-endian), base64-encode with `encode`, and
send. -/

/-- Truncation toward zero (JS `ToIntegerOrInfinity` on a finite value);
for a normalized rational this is `num.div den`. -/
def truncTowardZero (q : ℚ) : ℤ :=
  q.num.tdiv (q.den : ℤ)

/-- The unsigned 16-bit pattern an `Int16Array` store leaves in memory. -/
def int16Unsigned (x : ℚ) : ℤ :=
  (truncTowardZero (x * 32768)).emod 65536

/-- The 16-bit signed integer a float sample is converted to. -/
def int16OfSample (x : ℚ) : ℤ :=
  let u := int16Unsigned x
  if u < 32768 then u else u - 65536

/-- The two little-endian bytes of one converted sample. -/
def sampleBytes (x : ℚ) : List Nat :=
  let u := (int16Unsigned x).toNat
  [u % 256, u / 256]

/-- The byte buffer of a whole captured frame. -/
def frameToBytes (frame : List ℚ) : List Nat :=
  (frame.map sampleBytes).flatten

/-- The base64 alphabet. -/
def b64Char (n : Nat) : Char :=
  "ABCDEFGHIJKLMNOPQRSTUVWXYZabcdefghijklmnopqrstuvwxyz0123456789+/".toList.getD n 'A'

/-- `btoa` over a byte list (the `encode` helper builds a binary string
from the bytes and calls `btoa`; composed, that is plain base64). -/
def encodeBase64 : List Nat → String
  | [] => ""
  | [b0] =>
    String.mk [b64Char (b0 / 4), b64Char (b0 % 4 * 16)] ++ "=="
  | [b0, b1] =>
    String.mk [b64Char (b0 / 4), b64Char (b0 % 4 * 16 + b1 / 16), b64Char (b1 % 16 * 4)] ++ "="
  | b0 :: b1 :: b2 :: rest =>
    String.mk [b64Char (b0 / 4), b64Char (b0 % 4 * 16 + b1 / 16),
      b64Char (b1 % 16 * 4 + b2 / 64), b64Char (b2 % 64)] ++ encodeBase64 rest

/-- Capture-side session state: the two ref flags the handler checks and
the base64 payloads handed to `sendRealtimeInput`, in order. -/
structure CaptureState where
  isActive : Bool
  hasSession : Bool
  sent : List String
  deriving DecidableEq

/-- One `onaudioprocess` callback for a frame of float samples. -/
def processFrame (s : CaptureState) (frame : List ℚ) : CaptureState :=
  if s.isActive && s.hasSession then
    { s with sent := s.sent ++ [encodeBase64 (frameToBytes frame)] }
  else s

/-- Interleaved capture-side happenings: frames arriving, and the flags
being flipped (session open/close, stop). -/
inductive CaptureEvent where
  | frame : List ℚ → CaptureEvent
  | setActive : Bool → CaptureEvent
  | setSession : Bool → CaptureEvent

def runCapture (s : CaptureState) : List CaptureEvent → CaptureState
  | [] => s
  | .frame f :: rest => runCapture (processFrame s f) rest
  | .setActive b :: rest => runCapture { s with isActive := b } rest
  | .setSession b :: rest => runCapture { s with hasSession := b } rest

/-- The payloads that SHOULD be sent: exactly the encodings of the frames
that arrive while both flags are up, in arrival order. -/
def expectedSent (active session : Bool) : List CaptureEvent → List String
  | [] => []
  | .frame f :: rest =>
    (if active && session then [encodeBase64 (frameToBytes f)] else [])
      ++ expectedSent active session rest
  | .setActive b :: rest => expectedSent b session rest
  | .setSession b :: rest => expectedSent active b rest

/-! ## Theorems -/

/-- The fused parse loop is the marker scan followed by per-payload
decoding, skipping exactly the payloads that fail to decode. -/
theorem parseWBAux_eq_markers (fuel : Nat) :
    ∀ cs, parseWBAux fuel cs = (boardMarkersAux fuel cs).filterMap decodeBoardPayload := by
  induction fuel with
  | zero => intro cs; rfl
  | succ n ih =>
    intro cs
    cases cs with
    | nil => rfl
    | cons c cs' =>
      simp only [parseWBAux, boardMarkersAux]
      cases hst : stripLit boardOpen (c :: cs') with
      | none => simp [ih]
      | some afterOpen =>
        cases hfc : findClose afterOpen with
        | none => simp [hfc, ih]
        | some pr =>
          obtain ⟨inner, r⟩ := pr
          cases hdec : decodeBoardPayload (String.mk ('{' :: inner ++ ['}'])) with
          | none =>
            simp only [hfc, List.filterMap_cons, ih]
            rw [hdec]
          | some cmd =>
            simp only [hfc, List.filterMap_cons, ih]
            rw [hdec]

/-- Claim C1: the parser returns exactly the commands decoded from the
JSON payloads of the well-formed `[BOARD:...]` markers of the chunk in
source order; a payload that fails to decode is skipped without aborting
the scan, so later well-formed markers are still returned.  The spec's
end-to-end input yields exactly one `write` command with text `"F = ma"`,
and on the skip example the malformed marker IS matched (last conjunct)
yet only the later well-formed command is returned. -/
theorem claim1_parser_commands :
    (∀ text : String,
      parseWhiteboardCommands text = (boardMarkers text).filterMap decodeBoardPayload)
    ∧ parseWhiteboardCommands c1ExampleText
        = [JVal.jobj [("action", JVal.jstr "write"), ("text", JVal.jstr "F = ma")]]
    ∧ parseWhiteboardCommands c1SkipText
        = [JVal.jobj [("action", JVal.jstr "write"), ("text", JVal.jstr "ok")]]
    ∧ boardMarkers c1SkipText
        = ["\x7bbad\x7d", "\x7b\"action\":\"write\",\"text\":\"ok\"\x7d"] :=
  ⟨fun _ => parseWBAux_eq_markers _ _, by rfl, by rfl, by rfl⟩

/-- Growth to a not-larger height is the identity. -/
theorem expandCanvas_noop {s : WBState} {h : ℚ} (hle : h ≤ s.height) :
    expandCanvas s h = s := by
  unfold expandCanvas
  exact if_pos hle

/-- The height after one growth request is the max of old and requested. -/
theorem expandCanvas_height (s : WBState) (h : ℚ) :
    (expandCanvas s h).height = max s.height h := by
  unfold expandCanvas
  split
  · exact (max_eq_left (by assumption)).symm
  · exact (max_eq_right (le_of_not_le (by assumption))).symm

/-- Growth never shrinks the surface. -/
theorem expandCanvas_mono (s : WBState) (h : ℚ) :
    s.height ≤ (expandCanvas s h).height := by
  rw [expandCanvas_height]; exact le_max_left _ _

/-- Pixels of the old surface keep their paint history across one growth. -/
theorem expandCanvas_raster (s : WBState) (h : ℚ) (p : ℚ × ℚ)
    (hp : inOldRegion s.height p) : (expandCanvas s h).raster p = s.raster p := by
  unfold expandCanvas
  split
  · rfl
  · simp only
    rw [if_pos hp]

theorem inOldRegion_mono {h₁ h₂ : ℚ} {p : ℚ × ℚ} (hle : h₁ ≤ h₂)
    (hp : inOldRegion h₁ p) : inOldRegion h₂ p :=
  ⟨hp.1, hp.2.1, hp.2.2.1, lt_of_lt_of_le hp.2.2.2 hle⟩

/-- Final height of a growth sequence: fold of `max` over the requests. -/
theorem runGrow_height (hs : List ℚ) :
    ∀ s : WBState, (runGrow s hs).height = hs.foldl max s.height := by
  induction hs with
  | nil => intro s; rfl
  | cons h t ih =>
    intro s
    simp only [runGrow, List.foldl]
    rw [ih, expandCanvas_height]

/-- Pixels of the original surface survive any growth sequence. -/
theorem runGrow_raster (hs : List ℚ) :
    ∀ (s : WBState) (p : ℚ × ℚ), inOldRegion s.height p →
      (runGrow s hs).raster p = s.raster p := by
  induction hs with
  | nil => intro s p _; rfl
  | cons h t ih =>
    intro s p hp
    simp only [runGrow]
    rw [ih _ p (inOldRegion_mono (expandCanvas_mono s h) hp),
      expandCanvas_raster s h p hp]

/-- Claim C4 (amended): a `grow(h)` with `h ≤ current height` is a no-op;
otherwise the raster is snapshotted, the surface resized, the background
repainted and the snapshot restored at the origin (the composite raster
of `expandCanvas`).  The final height of a sequence equals the maximum of
the INITIAL height and all requested heights (not of the requests alone),
and content drawn before any growth is pixel-identical in the same region
afterwards. -/
theorem claim4_grow (s : WBState) (hs : List ℚ) (h : ℚ) (p : ℚ × ℚ) :
    (h ≤ s.height → expandCanvas s h = s)
    ∧ (runGrow s hs).height = hs.foldl max s.height
    ∧ (inOldRegion s.height p → (runGrow s hs).raster p = s.raster p) :=
  ⟨fun hle => expandCanvas_noop hle, runGrow_height hs s, runGrow_raster hs s p⟩

/-- Claim C4 counterexample: from the initial 800-px surface, the
sequence `[grow 100]` ends at height 800, not at the maximum requested
height 100 — the claim's "final surface height equals the maximum h
requested across the sequence" fails when every request is below the
initial height. -/
theorem claim4_grow_counterexample : ¬((runGrow initWB [100]).height = 100) := by
  decide

/-- A duplicate write (normalized hash already seen) only advances the
cursor: raster, log, hash set and item count are untouched, because
`getNextY` runs before the duplicate check. -/
theorem executeCommand_write_mem (env : RenderEnv) (s : WBState) (w : WriteData)
    (h : normHash w.text ∈ s.hashes) :
    executeCommand env s (.write w)
      = { s with currentY := s.currentY + (writeFontSize w * (7 / 5) + CONTENT_PADDING) } := by
  simp only [executeCommand]
  rw [if_pos h]

/-- A fresh write paints the text at the fixed left margin `x = 40` and
the pre-call cursor, records its hash, and bumps the item count. -/
theorem executeCommand_write_new (env : RenderEnv) (s : WBState) (w : WriteData)
    (h : normHash w.text ∉ s.hashes) :
    executeCommand env s (.write w)
      = { currentY := s.currentY + (writeFontSize w * (7 / 5) + CONTENT_PADDING)
          height := s.height
          hashes := normHash w.text :: s.hashes
          itemCount := s.itemCount + 1
          raster := paint (env.textMask w.text 40 s.currentY (writeFontSize w))
            (.text w.text 40 s.currentY (writeFontSize w) (colorOr w.color "#4ade80")) s.raster
          log := s.log ++ [.text w.text 40 s.currentY (writeFontSize w) (colorOr w.color "#4ade80")] } := by
  simp only [executeCommand]
  rw [if_neg h]

theorem renderedTexts_append (l₁ l₂ : List PaintEvent) :
    renderedTexts (l₁ ++ l₂) = renderedTexts l₁ ++ renderedTexts l₂ :=
  List.filterMap_append ..

/-- Running a write sequence renders exactly the first write of each
normalized-text group (against the state's seen-hash set), appending to
the log in order, and bumps the item count once per rendered write. -/
theorem runWrites_log (env : RenderEnv) (ws : List WriteData) :
    ∀ s : WBState,
      renderedTexts (runCmds env s (ws.map .write)).log
          = renderedTexts s.log ++ (firstWrites ws s.hashes).map (fun w => w.text)
      ∧ (runCmds env s (ws.map .write)).itemCount
          = s.itemCount + (firstWrites ws s.hashes).length := by
  induction ws with
  | nil => intro s; simp [runCmds, firstWrites]
  | cons w ws ih =>
    intro s
    simp only [List.map_cons, runCmds, firstWrites]
    by_cases h : normHash w.text ∈ s.hashes
    · rw [if_pos h, executeCommand_write_mem env s w h]
      exact ⟨(ih _).1, (ih _).2⟩
    · rw [if_neg h, executeCommand_write_new env s w h]
      obtain ⟨h1, h2⟩ := ih
        { currentY := s.currentY + (writeFontSize w * (7 / 5) + CONTENT_PADDING)
          height := s.height
          hashes := normHash w.text :: s.hashes
          itemCount := s.itemCount + 1
          raster := paint (env.textMask w.text 40 s.currentY (writeFontSize w))
            (.text w.text 40 s.currentY (writeFontSize w) (colorOr w.color "#4ade80")) s.raster
          log := s.log ++ [.text w.text 40 s.currentY (writeFontSize w) (colorOr w.color "#4ade80")] }
      constructor
      · rw [h1]
        simp [renderedTexts_append, renderedTexts]
      · rw [h2]
        simp only [List.length_cons]
        omega

/-- Deduplicating writes and then normalizing is deduplication of the
normalized hashes. -/
theorem firstWrites_map_norm (ws : List WriteData) :
    ∀ seen, (firstWrites ws seen).map (fun w => normHash w.text)
      = firstNorms (ws.map fun w => normHash w.text) seen := by
  induction ws with
  | nil => intro seen; rfl
  | cons w ws ih =>
    intro seen
    simp only [firstWrites, List.map_cons, firstNorms]
    by_cases h : normHash w.text ∈ seen
    · rw [if_pos h, if_pos h, ih]
    · rw [if_neg h, if_neg h, List.map_cons, ih]

/-- The deduplicated hash list holds a hash exactly once when it occurs
in the input and was not already seen, else not at all. -/
theorem countOcc_firstNorms (n : String) (ns : List String) :
    ∀ seen, countOcc n (firstNorms ns seen) = if n ∈ ns ∧ n ∉ seen then 1 else 0 := by
  induction ns with
  | nil => intro seen; simp [firstNorms, countOcc]
  | cons m ms ih =>
    intro seen
    by_cases hm : m ∈ seen
    · simp only [firstNorms, if_pos hm]
      rw [ih seen]
      by_cases hnm : m = n
      · subst hnm
        simp [hm]
      · simp [List.mem_cons, Ne.symm hnm, hnm]
    · simp only [firstNorms, if_neg hm, countOcc]
      rw [ih (m :: seen)]
      by_cases hnm : m = n
      · subst hnm
        simp [hm]
      · simp only [if_neg hnm, List.mem_cons, Ne.symm hnm, false_or, zero_add]

/-- Claim C2: within one session (from the fresh state), among all writes
with equal normalized text only the first is rendered onto the canvas,
the item counter increments exactly once for that group, and later
duplicates are skipped (the run is total — no error path exists).  The
rendered texts are exactly the group-first writes in order; the count of
rendered entries per normalized hash is 1 for present groups, 0
otherwise. -/
theorem claim2_write_dedup (env : RenderEnv) (ws : List WriteData) :
    renderedTexts (runCmds env initWB (ws.map Cmd.write)).log
        = (firstWrites ws []).map (fun w => w.text)
    ∧ (runCmds env initWB (ws.map Cmd.write)).itemCount = (firstWrites ws []).length
    ∧ ∀ n : String,
        countOcc n ((renderedTexts (runCmds env initWB (ws.map Cmd.write)).log).map normHash)
          = if n ∈ ws.map (fun w => normHash w.text) then 1 else 0 := by
  obtain ⟨h1, h2⟩ := runWrites_log env ws initWB
  refine ⟨?_, ?_, ?_⟩
  · simpa [initWB, renderedTexts] using h1
  · simpa [initWB] using h2
  · intro n
    have e : renderedTexts (runCmds env initWB (ws.map Cmd.write)).log
        = (firstWrites ws []).map (fun w => w.text) := by
      simpa [initWB, renderedTexts] using h1
    rw [e, List.map_map, Function.comp_def, firstWrites_map_norm, countOcc_firstNorms]
    simp

/-- Claim C6: a write ignores any caller-supplied position — the result
does not depend on the command's `x`/`y`; the cursor always advances by
`fontSize * 1.4 + padding`; whenever the text is rendered (its normalized
hash is new) it is painted at the fixed left margin 40 at the pre-call
cursor; and the first write of a session lands at the initial cursor
offset 80 with the item count becoming 1. -/
theorem claim6_write_position (env : RenderEnv) (s : WBState) (w : WriteData)
    (a b a' b' : Option ℚ) :
    executeCommand env s (.write { w with x := a, y := b })
        = executeCommand env s (.write { w with x := a', y := b' })
    ∧ (executeCommand env s (.write w)).currentY
        = s.currentY + (writeFontSize w * (7 / 5) + CONTENT_PADDING)
    ∧ (normHash w.text ∉ s.hashes →
        (executeCommand env s (.write w)).log
          = s.log ++ [.text w.text 40 s.currentY (writeFontSize w) (colorOr w.color "#4ade80")])
    ∧ (executeCommand env initWB (.write w)).itemCount = 1
    ∧ (executeCommand env initWB (.write w)).log
        = [.text w.text 40 80 (writeFontSize w) (colorOr w.color "#4ade80")] := by
  have hinit : normHash w.text ∉ initWB.hashes := by simp [initWB]
  refine ⟨?_, ?_, ?_, ?_, ?_⟩
  · cases w; rfl
  · simp only [executeCommand]
    split <;> rfl
  · intro h
    rw [executeCommand_write_new env s w h]
  · rw [executeCommand_write_new env initWB w hinit]
    rfl
  · rw [executeCommand_write_new env initWB w hinit]
    rfl

/-- Claim C6 witness: `claim6_write_position` at the fresh session state
with the duplicate-check hypothesis discharged for a concrete text. -/
theorem claim6_write_position_witness :
    normHash "E = mc^2" ∉ initWB.hashes
    ∧ (executeCommand env₀ initWB (.write ⟨"E = mc^2", none, none, none, none⟩)).log
        = initWB.log ++ [.text "E = mc^2" 40 initWB.currentY
            (writeFontSize ⟨"E = mc^2", none, none, none, none⟩)
            (colorOr none "#4ade80")] := by
  have h : normHash "E = mc^2" ∉ initWB.hashes := by simp [initWB]
  exact ⟨h,
    (claim6_write_position env₀ initWB ⟨"E = mc^2", none, none, none, none⟩
      none none none none).2.2.1 h⟩

/-- Claim C9: executing `clear` never erases previously drawn content —
every pixel outside the dashed-divider footprint keeps its exact paint
history, pixels inside it only gain the divider stroke on top, the op log
grows by a divider at the current cursor, the cursor advances by
`50 + padding = 80`, and the item count and surface height are untouched. -/
theorem claim9_clear_divider (env : RenderEnv) (s : WBState) (p : ℚ × ℚ) :
    (dividerMask s.currentY p = false →
        (executeCommand env s .clear).raster p = s.raster p)
    ∧ (dividerMask s.currentY p = true →
        (executeCommand env s .clear).raster p = s.raster p ++ [.divider s.currentY])
    ∧ (executeCommand env s .clear).log = s.log ++ [.divider s.currentY]
    ∧ (executeCommand env s .clear).currentY = s.currentY + 80
    ∧ (executeCommand env s .clear).itemCount = s.itemCount
    ∧ (executeCommand env s .clear).height = s.height := by
  refine ⟨?_, ?_, rfl, ?_, rfl, rfl⟩
  · intro h
    simp [executeCommand, paint, h]
  · intro h
    simp [executeCommand, paint, h]
  · show s.currentY + (50 + CONTENT_PADDING) = s.currentY + 80
    norm_num [CONTENT_PADDING]

/-- Claim C9 witness: `claim9_clear_divider` at the fresh state, with the
outside-the-divider hypothesis discharged at pixel `(0, 0)` and the
inside hypothesis at pixel `(45, 80)` (a dash-on point of the stroke). -/
theorem claim9_clear_divider_witness :
    (dividerMask initWB.currentY (0, 0) = false
      ∧ (executeCommand env₀ initWB .clear).raster (0, 0) = initWB.raster (0, 0))
    ∧ (dividerMask initWB.currentY (45, 80) = true
      ∧ (executeCommand env₀ initWB .clear).raster (45, 80)
          = initWB.raster (45, 80) ++ [.divider initWB.currentY]) := by
  have h0 : dividerMask initWB.currentY (0, 0) = false := by
    simp [dividerMask, initWB]
  have h1 : dividerMask initWB.currentY (45, 80) = true := by
    simp only [dividerMask, initWB, CANVAS_WIDTH, decide_eq_true_eq]
    norm_num
  exact ⟨⟨h0, (claim9_clear_divider env₀ initWB (0, 0)).1 h0⟩,
    ⟨h1, (claim9_clear_divider env₀ initWB (45, 80)).2.1 h1⟩⟩

/-- Claim C10 (implicit): executing a write whose normalized text was
already rendered leaves the raster, the log, the hash set and the item
counter unchanged, but STILL advances the cursor by
`fontSize * 1.4 + padding`, because `getNextY` runs before the duplicate
check — the skipped duplicate leaves a blank vertical gap. -/
theorem claim10_duplicate_gap (env : RenderEnv) (s : WBState) (w : WriteData)
    (h : normHash w.text ∈ s.hashes) :
    executeCommand env s (.write w)
      = { s with currentY := s.currentY + (writeFontSize w * (7 / 5) + CONTENT_PADDING) } := by
  simp only [executeCommand]
  rw [if_pos h]

/-- Claim C10 witness: a state that has already rendered `"F = ma"`; the
duplicate write only moves the cursor from 80 to `80 + 24·1.4 + 30`. -/
theorem claim10_duplicate_gap_witness :
    normHash "F = ma" ∈ ({ initWB with hashes := [normHash "F = ma"] } : WBState).hashes
    ∧ executeCommand env₀ { initWB with hashes := [normHash "F = ma"] }
        (.write ⟨"F = ma", none, none, none, none⟩)
      = { ({ initWB with hashes := [normHash "F = ma"] } : WBState) with
          currentY := ({ initWB with hashes := [normHash "F = ma"] } : WBState).currentY
            + (writeFontSize ⟨"F = ma", none, none, none, none⟩ * (7 / 5) + CONTENT_PADDING) } := by
  have h : normHash "F = ma"
      ∈ ({ initWB with hashes := [normHash "F = ma"] } : WBState).hashes := by
    simp
  exact ⟨h, claim10_duplicate_gap env₀ _ _ h⟩

/-- Claim C4 witness: `claim4_grow` applied at `s = initWB`,
`hs = [1000]`, `h = 500`, `p = (5, 5)` with both hypotheses discharged. -/
theorem claim4_grow_witness :
    ((500 : ℚ) ≤ initWB.height ∧ expandCanvas initWB 500 = initWB)
    ∧ (inOldRegion initWB.height (5, 5)
        ∧ (runGrow initWB [1000]).raster (5, 5) = initWB.raster (5, 5)) := by
  refine ⟨⟨by norm_num [initWB, MIN_CANVAS_HEIGHT], ?_⟩, ⟨?_, ?_⟩⟩
  · exact (claim4_grow initWB [1000] 500 (5, 5)).1 (by norm_num [initWB, MIN_CANVAS_HEIGHT])
  · exact ⟨by norm_num, by norm_num [CANVAS_WIDTH], by norm_num,
      by norm_num [initWB, MIN_CANVAS_HEIGHT]⟩
  · exact (claim4_grow initWB [1000] 500 (5, 5)).2.2
      ⟨by norm_num, by norm_num [CANVAS_WIDTH], by norm_num,
        by norm_num [initWB, MIN_CANVAS_HEIGHT]⟩

/-- Claim C7 (amended): when the image's required vertical extent
`imgY + imgHeight + 100` exceeds the current surface height, exactly one
growth call is awaited BEFORE the draw, with new height equal to the
required extent plus a fixed 300-px margin (not the minimal sufficient
height); the draw is applied to the post-growth surface.  Otherwise no
growth call is made. -/
theorem claim7_image_grow (env : RenderEnv) (s : WBState) (d : ImgData) (dims : ℚ × ℚ)
    (hdec : env.decodeImage d.imageData = some dims) :
    ((imgLayout s d dims).iy + (imgLayout s d dims).h + 100 > (imgLayout s d dims).st.height →
      renderImage env s d
        = (drawImg env (expandCanvas (imgLayout s d dims).st
              ((imgLayout s d dims).iy + (imgLayout s d dims).h + 100 + 300)) (imgLayout s d dims),
           [.growCall ((imgLayout s d dims).iy + (imgLayout s d dims).h + 100 + 300),
            .drawImage (imgLayout s d dims).ix (imgLayout s d dims).iy
              (imgLayout s d dims).w (imgLayout s d dims).h]))
    ∧ (¬((imgLayout s d dims).iy + (imgLayout s d dims).h + 100 > (imgLayout s d dims).st.height) →
      renderImage env s d
        = (drawImg env (imgLayout s d dims).st (imgLayout s d dims),
           [.drawImage (imgLayout s d dims).ix (imgLayout s d dims).iy
              (imgLayout s d dims).w (imgLayout s d dims).h])) := by
  constructor
  · intro h
    simp only [renderImage, hdec]
    rw [if_pos h]
  · intro h
    simp only [renderImage, hdec]
    rw [if_neg h]

/-- The layout of `imgC` from the fresh state, concretely. -/
theorem layoutC_eval :
    layoutC = { ix := 125, iy := 80, w := 550, h := 800
                st := { initWB with currentY := 950 } } := by
  simp only [layoutC, imgLayout, imgC, orElseNum, CANVAS_WIDTH, CONTENT_PADDING,
    ImgLayout.mk.injEq]
  norm_num [initWB, WBState.mk.injEq]

/-- Claim C7 counterexample: for the 800-px-tall image from the fresh
surface, the required extent is `imgY + imgHeight + 100 = 980 > 800`, so
the minimal sufficient new height is 980 — but the single growth call
requests `980 + 300 = 1280`.  The claim's "minimal sufficient new height"
fails. -/
theorem claim7_image_grow_counterexample :
    (renderImage envC initWB imgC).2 = [.growCall 1280, .drawImage 125 80 550 800]
    ∧ ¬((1280 : ℚ) ≤ 980) := by
  have hdec : envC.decodeImage imgC.imageData = some (100, 100) := rfl
  have hL : imgLayout initWB imgC (100, 100)
      = { ix := 125, iy := 80, w := 550, h := 800
          st := { initWB with currentY := 950 } } := by
    simp only [imgLayout, imgC, orElseNum, CANVAS_WIDTH, CONTENT_PADDING, ImgLayout.mk.injEq]
    norm_num [initWB, WBState.mk.injEq]
  constructor
  · simp only [renderImage, hdec, hL]
    rw [if_pos (by norm_num [initWB, MIN_CANVAS_HEIGHT])]
    norm_num
  · norm_num

/-- Claim C7 witness: `claim7_image_grow` at `envC`, the fresh state and
`imgC`, with the decode and extent hypotheses discharged. -/
theorem claim7_image_grow_witness :
    envC.decodeImage imgC.imageData = some (100, 100)
    ∧ layoutC.iy + layoutC.h + 100 > layoutC.st.height
    ∧ renderImage envC initWB imgC
        = (drawImg envC (expandCanvas layoutC.st (layoutC.iy + layoutC.h + 100 + 300)) layoutC,
           [.growCall (layoutC.iy + layoutC.h + 100 + 300),
            .drawImage layoutC.ix layoutC.iy layoutC.w layoutC.h]) := by
  have hdec : envC.decodeImage imgC.imageData = some (100, 100) := rfl
  have hgt : layoutC.iy + layoutC.h + 100 > layoutC.st.height := by
    rw [layoutC_eval]
    norm_num [initWB, MIN_CANVAS_HEIGHT]
  exact ⟨hdec, hgt, (claim7_image_grow envC initWB imgC (100, 100) hdec).1 hgt⟩

/-- Gap-free scheduling: while every chunk arrives before the queue runs
dry, the scheduled starts are the running prefix sums of the durations. -/
theorem run_schedule (rest : List (ℚ × ℚ)) :
    ∀ s : PlaybackState, laterInTime s.nextStartTime rest →
      (runPlayback s rest).sources.map Prod.fst
        = s.sources.map Prod.fst ++ scheduleFrom s.nextStartTime (rest.map Prod.snd) := by
  induction rest with
  | nil => intro s _; simp [runPlayback, scheduleFrom]
  | cons c rest ih =>
    obtain ⟨t, d⟩ := c
    intro s h
    simp only [laterInTime] at h
    obtain ⟨h1, h2⟩ := h
    simp only [runPlayback, playChunk]
    rw [max_eq_left h1]
    rw [ih { nextStartTime := s.nextStartTime + d
             sources := s.sources ++ [(s.nextStartTime, d)] } h2]
    simp [scheduleFrom, List.append_assoc]

/-- The `n`-th entry of the prefix-sum schedule is the base plus the sum
of the first `n` durations. -/
theorem scheduleFrom_getD (ds : List ℚ) :
    ∀ (b : ℚ) (n : Nat), n < ds.length →
      (scheduleFrom b ds).getD n 0 = b + (ds.take n).sum := by
  induction ds with
  | nil => intro b n h; simp at h
  | cons d ds ih =>
    intro b n h
    cases n with
    | zero => simp [scheduleFrom]
    | succ m =>
      simp only [scheduleFrom, List.getD_cons_succ, List.take_succ_cons, List.sum_cons]
      rw [ih (b + d) m (by simpa using h)]
      ring

theorem nonOverlap_append_single (l : List (ℚ × ℚ)) (st d : ℚ)
    (hl : nonOverlap l) (he : ∀ e ∈ l, e.1 + e.2 ≤ st) :
    nonOverlap (l ++ [(st, d)]) := by
  induction l with
  | nil => simp [nonOverlap]
  | cons a l ih =>
    cases l with
    | nil =>
      refine ⟨he a (by simp), ?_⟩
      simp [nonOverlap]
    | cons b l' =>
      obtain ⟨hab, hrest⟩ := hl
      exact ⟨hab, ih hrest (fun e he' => he e (by simp [he']))⟩

/-- Scheduling invariant: every scheduled buffer ends no later than
`nextStartTime`, and scheduled buffers never overlap. -/
theorem run_nonOverlap (chunks : List (ℚ × ℚ)) :
    ∀ s : PlaybackState, (∀ c ∈ chunks, 0 ≤ c.2) →
      nonOverlap s.sources → (∀ e ∈ s.sources, e.1 + e.2 ≤ s.nextStartTime) →
      nonOverlap (runPlayback s chunks).sources
        ∧ ∀ e ∈ (runPlayback s chunks).sources,
            e.1 + e.2 ≤ (runPlayback s chunks).nextStartTime := by
  induction chunks with
  | nil => intro s _ h1 h2; exact ⟨h1, h2⟩
  | cons c chunks ih =>
    obtain ⟨t, d⟩ := c
    intro s hd h1 h2
    simp only [runPlayback, playChunk]
    apply ih
    · intro c hc
      exact hd c (by simp [hc])
    · exact nonOverlap_append_single _ _ _ h1
        (fun e he => le_trans (h2 e he) (le_max_left _ _))
    · intro e he
      have hd0 : (0 : ℚ) ≤ d := hd (t, d) (by simp)
      have h4 : s.nextStartTime ≤ max s.nextStartTime t := le_max_left _ _
      show e.1 + e.2 ≤ max s.nextStartTime t + d
      rcases List.mem_append.mp he with hmem | hmem
      · have h3 := h2 e hmem
        linarith
      · rw [List.mem_singleton] at hmem
        rw [hmem]

/-- Claim C3 (amended): each chunk is scheduled at
`max(nextStartTime, clock)` and `nextStartTime` then advances by exactly
the chunk's duration.  Hence — given that every chunk after the first
arrives while queued audio is still pending — the scheduled starts are
the first chunk's start plus the running sums of the prior durations
(gap-free); the `n`-th entry of that schedule is the base plus the sum of
the first `n` durations; and scheduled buffers never overlap, with no
arrival-time hypothesis at all.  The first chunk starts at
`max(nextStartTime₀, clock)`, not at 0, which is why the claim's literal
"equals the sum of all prior durations" fails (see the counterexample). -/
theorem claim3_playback_schedule (ns₀ t₁ d₁ : ℚ) (rest chunks : List (ℚ × ℚ)) :
    (laterInTime (max ns₀ t₁ + d₁) rest →
      (runPlayback (playChunk ⟨ns₀, []⟩ t₁ d₁) rest).sources.map Prod.fst
        = scheduleFrom (max ns₀ t₁) (d₁ :: rest.map Prod.snd))
    ∧ (∀ (b : ℚ) (ds : List ℚ) (n : Nat), n < ds.length →
        (scheduleFrom b ds).getD n 0 = b + (ds.take n).sum)
    ∧ ((∀ c ∈ chunks, 0 ≤ c.2) → nonOverlap (runPlayback ⟨ns₀, []⟩ chunks).sources) := by
  refine ⟨?_, fun b ds n h => scheduleFrom_getD ds b n h, ?_⟩
  · intro h
    rw [run_schedule rest (playChunk ⟨ns₀, []⟩ t₁ d₁) h]
    simp [playChunk, scheduleFrom]
  · intro hd
    exact (run_nonOverlap chunks ⟨ns₀, []⟩ hd (by simp [nonOverlap]) (by simp)).1

/-- Claim C3 counterexample: a single chunk of duration 2 arriving at
audio-clock time 5 in a fresh session is scheduled to start at 5, while
the sum of all prior chunks' durations is 0 — the claimed "n-th chunk's
scheduled start time equals the sum of all prior chunks' durations" is
false at the very first chunk whenever the clock is past 0. -/
theorem claim3_playback_counterexample :
    (runPlayback initPlayback [(5, 2)]).sources.map Prod.fst = [5]
    ∧ ¬((5 : ℚ) = 0) := by
  constructor
  · simp only [initPlayback, runPlayback, playChunk]
    rw [max_eq_right (by norm_num : (0 : ℚ) ≤ 5)]
    simp
  · norm_num

/-- Claim C3 witness: `claim3_playback_schedule` at two chunks
`(t, d) = (1, 2), (2, 3)` — the second arrives at clock 2 before the
queue (then ending at `max 0 1 + 2 = 3`) runs dry — and nonnegative
durations for the overlap-freedom part. -/
theorem claim3_playback_witness :
    laterInTime (max (0 : ℚ) 1 + 2) [(2, 3)]
    ∧ (runPlayback (playChunk ⟨0, []⟩ 1 2) [(2, 3)]).sources.map Prod.fst
        = scheduleFrom (max (0 : ℚ) 1) (2 :: [((2 : ℚ), (3 : ℚ))].map Prod.snd)
    ∧ (∀ c ∈ [((1 : ℚ), (2 : ℚ))], (0 : ℚ) ≤ c.2)
    ∧ nonOverlap (runPlayback ⟨0, []⟩ [((1 : ℚ), (2 : ℚ))]).sources := by
  have hl : laterInTime (max (0 : ℚ) 1 + 2) [(2, 3)] := by
    simp only [laterInTime]
    rw [max_eq_right (by norm_num : (0 : ℚ) ≤ 1)]
    norm_num
  have hd : ∀ c ∈ [((1 : ℚ), (2 : ℚ))], (0 : ℚ) ≤ c.2 := by
    intro c hc
    rw [List.mem_singleton] at hc
    rw [hc]
    norm_num
  exact ⟨hl, (claim3_playback_schedule 0 1 2 [(2, 3)] [(1, 2)]).1 hl, hd,
    (claim3_playback_schedule 0 1 2 [(2, 3)] [(1, 2)]).2.2 hd⟩

/-- Claim C5 (amended): the interrupt handler stops and discards every
scheduled buffer (zero remain) and resets `nextStartTime` to 0 — not to
the current clock time.  Because the next chunk is scheduled at
`max(nextStartTime, clock)` and the clock is nonnegative and monotone,
the next chunk still starts exactly at its arrival clock time, at or
after the interrupt time. -/
theorem claim5_interrupt_reset (s : PlaybackState) (tInt t d : ℚ) :
    (interruptPlayback s).sources = []
    ∧ (interruptPlayback s).nextStartTime = 0
    ∧ (tInt ≤ t → 0 ≤ t →
        (playChunk (interruptPlayback s) t d).sources = [(t, d)]
        ∧ ∀ st ∈ (playChunk (interruptPlayback s) t d).sources.map Prod.fst, tInt ≤ st) := by
  refine ⟨rfl, rfl, fun h1 h2 => ?_⟩
  have hm : max (0 : ℚ) t = t := max_eq_right h2
  constructor
  · simp [playChunk, interruptPlayback, hm]
  · intro st hst
    simp only [playChunk, interruptPlayback, hm, List.map_cons, List.map_nil,
      List.nil_append, List.mem_singleton] at hst
    rw [hst]
    exact h1

/-- Claim C5 counterexample: interrupting while the clock reads 5 leaves
`nextStartTime = 0`, not 5 — the claimed "the playback clock is reset to
the current time" is false (the code sets `nextStartTimeRef.current = 0`). -/
theorem claim5_interrupt_counterexample :
    (interruptPlayback { nextStartTime := 7, sources := [(0, 7)] }).nextStartTime = 0
    ∧ ¬((interruptPlayback { nextStartTime := 7, sources := [(0, 7)] }).nextStartTime = 5) := by
  constructor
  · rfl
  · norm_num [interruptPlayback]

/-- Claim C5 witness: `claim5_interrupt_reset` with interrupt time 5 and
the next chunk arriving at clock 6. -/
theorem claim5_interrupt_witness :
    ((5 : ℚ) ≤ 6 ∧ (0 : ℚ) ≤ 6)
    ∧ (playChunk (interruptPlayback { nextStartTime := 7, sources := [(0, 7)] }) 6 2).sources
        = [(6, 2)] := by
  have h1 : (5 : ℚ) ≤ 6 := by norm_num
  have h2 : (0 : ℚ) ≤ 6 := by norm_num
  exact ⟨⟨h1, h2⟩,
    ((claim5_interrupt_reset { nextStartTime := 7, sources := [(0, 7)] } 5 6 2).2.2 h1 h2).1⟩

/-- The capture run sends exactly the encodings of the frames that arrive
while the session flags are up, in order. -/
theorem runCapture_sent (evs : List CaptureEvent) :
    ∀ s : CaptureState,
      (runCapture s evs).sent = s.sent ++ expectedSent s.isActive s.hasSession evs := by
  induction evs with
  | nil => intro s; simp [runCapture, expectedSent]
  | cons e evs ih =>
    intro s
    cases e with
    | frame f =>
      simp only [runCapture, expectedSent, processFrame]
      by_cases h : (s.isActive && s.hasSession) = true
      · rw [if_pos h, if_pos h, ih]
        simp
      · rw [if_neg h, if_neg h, ih]
        simp
    | setActive b =>
      simp only [runCapture, expectedSent]
      exact ih _
    | setSession b =>
      simp only [runCapture, expectedSent]
      exact ih _

/-- Claim C8: every captured frame is converted sample-by-sample to
16-bit signed integers by multiplying by 32768 (with JS `Int16Array`
truncate-and-wrap semantics), the little-endian byte buffer is
base64-encoded and handed to the outbound transport — and this happens
exactly while the session is active with a live session handle; a frame
arriving otherwise leaves the state untouched (dropped, not queued).
Concrete anchors: `0.5 ↦ 16384`, `-0.5 ↦ -16384`, `1.0 ↦ -32768` (wrap),
and the one-sample frame `[0.5]` is sent as base64 `"AEA="`. -/
theorem claim8_capture_encode (evs : List CaptureEvent) (s : CaptureState) (f : List ℚ) :
    (runCapture s evs).sent = s.sent ++ expectedSent s.isActive s.hasSession evs
    ∧ ((s.isActive && s.hasSession) = false → processFrame s f = s)
    ∧ ((s.isActive && s.hasSession) = true →
        (processFrame s f).sent = s.sent ++ [encodeBase64 (frameToBytes f)])
    ∧ int16OfSample (1 / 2) = 16384
    ∧ int16OfSample (-(1 / 2)) = -16384
    ∧ int16OfSample 1 = -32768
    ∧ encodeBase64 (frameToBytes [1 / 2]) = "AEA=" := by
  have e1 : ((1 : ℚ) / 2) * 32768 = ((16384 : ℤ) : ℚ) := by norm_num
  have e2 : (-((1 : ℚ) / 2)) * 32768 = ((-16384 : ℤ) : ℚ) := by norm_num
  have e3 : ((1 : ℚ)) * 32768 = ((32768 : ℤ) : ℚ) := by norm_num
  refine ⟨runCapture_sent evs s, ?_, ?_, ?_, ?_, ?_, ?_⟩
  · intro h
    simp [processFrame, h]
  · intro h
    simp [processFrame, h]
  · simp only [int16OfSample, int16Unsigned, truncTowardZero, e1,
      Rat.num_intCast, Rat.den_intCast]
    decide
  · simp only [int16OfSample, int16Unsigned, truncTowardZero, e2,
      Rat.num_intCast, Rat.den_intCast]
    decide
  · simp only [int16OfSample, int16Unsigned, truncTowardZero, e3,
      Rat.num_intCast, Rat.den_intCast]
    decide
  · simp only [frameToBytes, List.map, sampleBytes, int16Unsigned, truncTowardZero, e1,
      Rat.num_intCast, Rat.den_intCast]
    decide

/-- Claim C8 witness: `claim8_capture_encode` on a run where a frame
arrives while active, the session is then deactivated, and a second frame
arrives after deactivation; both flag hypotheses are discharged. -/
theorem claim8_capture_encode_witness :
    ((true && true) = true
      ∧ (processFrame ⟨true, true, []⟩ [1 / 2]).sent
          = [] ++ [encodeBase64 (frameToBytes [1 / 2])])
    ∧ ((false && true) = false ∧ processFrame ⟨false, true, []⟩ [1] = ⟨false, true, []⟩)
    ∧ (runCapture ⟨true, true, []⟩
          [.frame [1 / 2], .setActive false, .frame [1]]).sent
        = [] ++ expectedSent true true [.frame [1 / 2], .setActive false, .frame [1]] := by
  refine ⟨⟨rfl, ?_⟩, ⟨rfl, ?_⟩, ?_⟩
  · exact (claim8_capture_encode [] ⟨true, true, []⟩ [1 / 2]).2.2.1 rfl
  · exact (claim8_capture_encode [] ⟨false, true, []⟩ [1]).2.1 rfl
  · exact (claim8_capture_encode [.frame [1 / 2], .setActive false, .frame [1]]
      ⟨true, true, []⟩ []).1

end LuminaOS
